import Mathlib

/-!
Verification of the coffea-workflow-engine caching core.

Shallow embedding of `src/coffea_workflow_engine`:
 - `artifacts.py`  : the five registered artifact dataclasses, `keys`, `to_dict`,
   the artifact registry and `artifact_from_dict`;
 - `identity.py`   : `canonicalize` (json.dumps with sort_keys, compact separators
   and the `default` hook) and `hash_identity`;
 - `executor.py`   : `Executor.materialize` over an explicit file-system state;
 - `producers.py`  : the producer registry (`producer` decorator, `get_producer`);
 - `workflow/model.py` and `workflow/renderers/render_local.py` : `Step`,
   `Workflow.add`, `_topo_order`, `_resolve_params`, `_print_dag`, `render_local`.

Modelling conventions:
 - Python values appearing in key mappings / parameters are the inductive `PyVal`
   (with companion types `PyList`, `PyKVs` for nested lists and dicts).
 - The SHA-256 hex digest of `hash_identity` is modelled injectively: the digest of
   canonical bytes is represented by the canonical JSON value itself.  json.dumps
   with `sort_keys=True` and unique object keys is injective on JSON values, and the
   spec (§4.2) assumes negligible accidental collision for the digest, so equality
   of modelled identities coincides with equality of real digests under that
   standing assumption.
 - The file system is explicit state: a list of payload file locations plus a list
   of created directories.  `Path.exists` on a payload path is membership among the
   payload files; `mkdir(parents=True)` only ever creates the (strictly shorter)
   ancestor directories of a payload path, never the payload path itself.
 - A producer function is modelled extensionally by its effect on the file-system
   state together with an optional raised error; recursive `deps.need` calls are
   absorbed into that effect.
-/

namespace CoffeaWE

/-! ## Artifact dataclasses (artifacts.py) -/

structure Fileset where
  dataset : String
  era : String
  deriving DecidableEq

structure Partition where
  fileset : Fileset
  n_parts : Int
  strategy : String
  deriving DecidableEq

structure ChunkResult where
  fileset : Fileset
  chunkPart : Int
  chunk_size : Int
  tag : String
  deriving DecidableEq

structure MergedResult where
  fileset : Fileset
  tag : String
  deriving DecidableEq

structure Plots where
  fileset : Fileset
  tag : String
  deriving DecidableEq

/-- The closed sum of the five `@register_artifact` dataclasses of artifacts.py. -/
inductive Art where
  | fs (f : Fileset)
  | pt (p : Partition)
  | ck (c : ChunkResult)
  | mg (m : MergedResult)
  | pl (p : Plots)
  deriving DecidableEq

/-! A Python value as it occurs in key mappings and step parameters; `PyList`
and `PyKVs` are the nested list and dict spines. -/

mutual

inductive PyVal where
  | pstr (s : String)
  | pint (n : Int)
  | pbool (b : Bool)
  | pnone
  | pnan
  | plist (xs : PyList)
  | pdict (kvs : PyKVs)
  | pset (xs : PyList)
  | ppath (s : String)
  | pobj (a : Art)
  deriving DecidableEq

inductive PyList where
  | nil
  | cons (x : PyVal) (xs : PyList)
  deriving DecidableEq

inductive PyKVs where
  | nil
  | cons (k : String) (v : PyVal) (kvs : PyKVs)
  deriving DecidableEq

end

/-- Membership of a key in a Python dict. -/
def PyKVs.hasKey (kvs : PyKVs) (k : String) : Bool :=
  match kvs with
  | .nil => false
  | .cons l _ rest => l == k || rest.hasKey k

/-- `d[k]` on a Python dict: value of the first binding of `k`. -/
def PyKVs.find? (kvs : PyKVs) (k : String) : Option PyVal :=
  match kvs with
  | .nil => none
  | .cons l v rest => if l == k then some v else rest.find? k

/-- `Fileset.keys()`. -/
def Fileset.keysPy (f : Fileset) : PyVal :=
  .pdict (.cons "dataset" (.pstr f.dataset) (.cons "era" (.pstr f.era) .nil))

/-- `keys()` of each registered artifact class, exactly as written in
artifacts.py (nested artifacts appear through `self.fileset.keys()`). -/
def Art.keysPy : Art → PyVal
  | .fs f => f.keysPy
  | .pt p => .pdict (.cons "fileset" p.fileset.keysPy (.cons "n_parts" (.pint p.n_parts)
      (.cons "strategy" (.pstr p.strategy) .nil)))
  | .ck c => .pdict (.cons "fileset" c.fileset.keysPy (.cons "part" (.pint c.chunkPart)
      (.cons "chunk_size" (.pint c.chunk_size) (.cons "tag" (.pstr c.tag) .nil))))
  | .mg m => .pdict (.cons "fileset" m.fileset.keysPy (.cons "tag" (.pstr m.tag) .nil))
  | .pl p => .pdict (.cons "fileset" p.fileset.keysPy (.cons "tag" (.pstr p.tag) .nil))

/-- `type(self).__name__` / `ArtifactBase.type_name`. -/
def Art.typeName : Art → String
  | .fs _ => "Fileset"
  | .pt _ => "Partition"
  | .ck _ => "ChunkResult"
  | .mg _ => "MergedResult"
  | .pl _ => "Plots"

/-- `ArtifactBase.to_dict`: `{"type": cls.__name__, "keys": self.keys()}`. -/
def Art.to_dictPy (a : Art) : PyVal :=
  .pdict (.cons "type" (.pstr a.typeName) (.cons "keys" a.keysPy .nil))

/-! ## Canonical codec (identity.py) -/

/-! A canonical JSON value (`Json`, with spines `JsonList`, `JsonKVs`): what
json.dumps serializes, with object keys already in sorted order.  `jnan` is the
bare `NaN` token emitted for a float NaN under the default `allow_nan=True`. -/

mutual

inductive Json where
  | jstr (s : String)
  | jint (n : Int)
  | jbool (b : Bool)
  | jnull
  | jnan
  | jarr (xs : JsonList)
  | jobj (kvs : JsonKVs)
  deriving DecidableEq

inductive JsonList where
  | nil
  | cons (x : Json) (xs : JsonList)
  deriving DecidableEq

inductive JsonKVs where
  | nil
  | cons (k : String) (v : Json) (kvs : JsonKVs)
  deriving DecidableEq

end

inductive EncErr where
  | typeError
  deriving DecidableEq

/-- Stable insertion of one key/value pair into a key-sorted object spine. -/
def insertKV (k : String) (v : Json) : JsonKVs → JsonKVs
  | .nil => .cons k v .nil
  | .cons l w rest => if k ≤ l then .cons k v (.cons l w rest)
      else .cons l w (insertKV k v rest)

/-- `sort_keys=True`: sort an object's pairs by key (insertion sort). -/
def sortKVs : JsonKVs → JsonKVs
  | .nil => .nil
  | .cons k v rest => insertKV k v (sortKVs rest)

/-- Canonical form of each registered artifact's key mapping, with object keys
already sorted; certified against the generic codec by `canonicalize_keysPy`. -/
def Fileset.canonKeys (f : Fileset) : Json :=
  .jobj (.cons "dataset" (.jstr f.dataset) (.cons "era" (.jstr f.era) .nil))

def Art.canonKeys : Art → Json
  | .fs f => f.canonKeys
  | .pt p => .jobj (.cons "fileset" p.fileset.canonKeys (.cons "n_parts" (.jint p.n_parts)
      (.cons "strategy" (.jstr p.strategy) .nil)))
  | .ck c => .jobj (.cons "chunk_size" (.jint c.chunk_size) (.cons "fileset" c.fileset.canonKeys
      (.cons "part" (.jint c.chunkPart) (.cons "tag" (.jstr c.tag) .nil))))
  | .mg m => .jobj (.cons "fileset" m.fileset.canonKeys (.cons "tag" (.jstr m.tag) .nil))
  | .pl p => .jobj (.cons "fileset" p.fileset.canonKeys (.cons "tag" (.jstr p.tag) .nil))

/-- Canonical form of `to_dict`: object keys "keys" < "type" sorted. -/
def Art.canonDict (a : Art) : Json :=
  .jobj (.cons "keys" a.canonKeys (.cons "type" (.jstr a.typeName) .nil))

mutual

/-- `canonicalize` from identity.py: `json.dumps(obj, sort_keys=True,
separators=(",",":"), ensure_ascii=False, default=default).encode()`.
The `default` hook turns an object with `to_dict` into its `to_dict()` dict
(for an artifact this is its `{"type", "keys"}` dict, whose canonical form is
`Art.canonDict`, certified by `canonicalize_to_dictPy`), turns a `Path` into
`str(o)`, and raises `TypeError` otherwise (in particular for any `set`).
A float NaN serializes as the bare `NaN` token because json.dumps is called
with the default `allow_nan=True`. -/
def canonicalize : PyVal → Except EncErr Json
  | .pstr s => .ok (.jstr s)
  | .pint n => .ok (.jint n)
  | .pbool b => .ok (.jbool b)
  | .pnone => .ok .jnull
  | .pnan => .ok .jnan
  | .plist xs => do pure (.jarr (← canonList xs))
  | .pdict kvs => do pure (.jobj (sortKVs (← canonKVs kvs)))
  | .pset _ => .error .typeError
  | .ppath s => .ok (.jstr s)
  | .pobj a => .ok a.canonDict

def canonList : PyList → Except EncErr JsonList
  | .nil => .ok .nil
  | .cons x xs => do pure (.cons (← canonicalize x) (← canonList xs))

def canonKVs : PyKVs → Except EncErr JsonKVs
  | .nil => .ok .nil
  | .cons k v kvs => do pure (.cons k (← canonicalize v) (← canonKVs kvs))

end

/-- `hash_identity(*parts)`: each part canonicalized and fed to the digest;
the digest is modelled injectively by the list of canonical values. -/
def hash_identity (parts : List PyVal) : Except EncErr (List Json) :=
  parts.mapM canonicalize

/-- `ArtifactBase.identity`: `hash_identity(self.to_dict())`. -/
def Art.identity (a : Art) : Except EncErr (List Json) :=
  hash_identity [a.to_dictPy]

/-- The canonical codec succeeds on every registered artifact's key mapping and
yields exactly `Art.canonKeys`. -/
theorem canonicalize_keysPy (a : Art) : canonicalize a.keysPy = .ok a.canonKeys := by
  cases a <;>
  simp +decide [Art.keysPy, Art.canonKeys, Fileset.keysPy, Fileset.canonKeys,
    canonicalize, canonKVs, sortKVs, insertKV, bind, Except.bind, pure, Except.pure]

/-- The canonical codec on an artifact's `to_dict` dict yields `Art.canonDict`;
together with the `pobj` case of `canonicalize` this certifies that the codec's
`default` hook encodes a raw artifact exactly as its own `(type, keys)` dict. -/
theorem canonicalize_to_dictPy (a : Art) : canonicalize a.to_dictPy = .ok a.canonDict := by
  cases a <;>
  simp +decide [Art.to_dictPy, Art.canonDict, Art.typeName, Art.keysPy, Art.canonKeys,
    Fileset.keysPy, Fileset.canonKeys, canonicalize, canonKVs, sortKVs, insertKV,
    bind, Except.bind, pure, Except.pure]

theorem Art.identity_eq (a : Art) : a.identity = .ok [a.canonDict] := by
  simp [Art.identity, hash_identity, List.mapM, List.mapM.loop, canonicalize_to_dictPy a]

theorem Art.canonDict_inj (a b : Art) : a.canonDict = b.canonDict ↔ a = b := by
  rcases a with ⟨⟨ad, ae⟩⟩ | ⟨⟨⟨ad, ae⟩, an, sa⟩⟩ | ⟨⟨⟨ad, ae⟩, ap, ac, ta⟩⟩ |
    ⟨⟨⟨ad, ae⟩, ta⟩⟩ | ⟨⟨⟨ad, ae⟩, ta⟩⟩ <;>
  rcases b with ⟨⟨bd, be⟩⟩ | ⟨⟨⟨bd, be⟩, bn, sb⟩⟩ | ⟨⟨⟨bd, be⟩, bp, bc, tb⟩⟩ |
    ⟨⟨⟨bd, be⟩, tb⟩⟩ | ⟨⟨⟨bd, be⟩, tb⟩⟩ <;>
  simp [Art.canonDict, Art.canonKeys, Fileset.canonKeys, Art.typeName] <;> tauto

theorem Art.typeName_keysPy_inj (a b : Art) :
    (a.typeName = b.typeName ∧ a.keysPy = b.keysPy) ↔ a = b := by
  rcases a with ⟨⟨ad, ae⟩⟩ | ⟨⟨⟨ad, ae⟩, an, sa⟩⟩ | ⟨⟨⟨ad, ae⟩, ap, ac, ta⟩⟩ |
    ⟨⟨⟨ad, ae⟩, ta⟩⟩ | ⟨⟨⟨ad, ae⟩, ta⟩⟩ <;>
  rcases b with ⟨⟨bd, be⟩⟩ | ⟨⟨⟨bd, be⟩, bn, sb⟩⟩ | ⟨⟨⟨bd, be⟩, bp, bc, tb⟩⟩ |
    ⟨⟨⟨bd, be⟩, tb⟩⟩ | ⟨⟨⟨bd, be⟩, tb⟩⟩ <;>
  simp [Art.keysPy, Fileset.keysPy, Art.typeName]

/-- C3: `identity(a) == identity(b)` iff `a` and `b` have the same type name and
equal key mappings (equality of the `keys()` dictionaries is structural, hence
recursive through nested artifacts' key mappings); moreover a raw artifact value
occurring as a key field is encoded by the codec's `default` hook exactly as its
own canonical `{"type", "keys"}` (`to_dict`) representation, so the identity of
an outer artifact is a pure function of type name and key mappings alone. -/
theorem identity_iff_type_and_keys (a b : Art) :
    (a.identity = b.identity ↔ a.typeName = b.typeName ∧ a.keysPy = b.keysPy)
    ∧ canonicalize (.pobj a) = canonicalize a.to_dictPy := by
  refine ⟨?_, ?_⟩
  · rw [Art.identity_eq, Art.identity_eq]
    simp [Art.canonDict_inj, Art.typeName_keysPy_inj]
  · rw [canonicalize_to_dictPy]
    rfl

/-! ## Producer registry (producers.py) -/

inductive PErr where
  | perr (msg : String)
  deriving DecidableEq

/-! `Executor.path_for`: `cache_dir / art.type_name / art.identity() / "payload.json"`.
The identity path segment carries the injectively-modelled digest (`identityJ`,
the total value of `art.identity()`, certified by `Art.identity_eq` /
`identityJ_spec`). -/

structure Loc where
  cacheDir : String
  typeName : String
  ident : Json
  fname : String
  deriving DecidableEq

/-- A directory created by `out.parent.mkdir(parents=True, exist_ok=True)`: the
identity directory `cache_dir / type_name / identity()`.  Neither it nor any of
its ancestors coincides with a payload file location, so `out.exists()` is
unaffected by `mkdir`. -/
structure DirLoc where
  cacheDir : String
  typeName : String
  ident : Json
  deriving DecidableEq

/-- File-system state: payload files present plus directories created. -/
structure MState where
  files : List Loc
  dirs : List DirLoc
  deriving DecidableEq

/-- A producer modelled extensionally: the file-system effect of
`fn(target=art, deps=deps, out=out)` together with an optionally raised
exception; recursive `deps.need` calls are absorbed into the effect. -/
abbrev ProducerFn := MState → Art → Loc → MState × Option PErr

/-- Python dict assignment `d[k] = v`: overwrite in place, else append. -/
def dictInsert {α : Type} (m : List (String × α)) (k : String) (v : α) :
    List (String × α) :=
  match m with
  | [] => [(k, v)]
  | (l, w) :: rest => if l = k then (l, v) :: rest else (l, w) :: dictInsert rest k v

/-- The `@producer(return_type)` decorator body: `_PRODUCERS[return_type] = fn`
(no duplicate check of any kind). -/
def producerReg (m : List (String × ProducerFn)) (t : String) (fn : ProducerFn) :
    List (String × ProducerFn) :=
  dictInsert m t fn

/-- Python dict lookup `m[k]` as an option. -/
def slookup {α : Type} (m : List (String × α)) (k : String) : Option α :=
  match m with
  | [] => none
  | (l, w) :: rest => if l = k then some w else slookup rest k

/-- `get_producer(t)`: `_PRODUCERS[t]`, raising `KeyError` when absent. -/
def get_producer (m : List (String × ProducerFn)) (t : String) :
    Except String ProducerFn :=
  match slookup m t with
  | some fn => .ok fn
  | none => .error ("No producer registered for artifact type: " ++ t)

theorem slookup_dictInsert_self {α : Type} (m : List (String × α)) (k : String) (v : α) :
    slookup (dictInsert m k v) k = some v := by
  induction m with
  | nil => simp [dictInsert, slookup]
  | cons p rest ih =>
    obtain ⟨l, w⟩ := p
    by_cases h : l = k <;> simp [dictInsert, slookup, h, ih]

theorem slookup_dictInsert_ne {α : Type} (m : List (String × α)) (k k2 : String) (v : α)
    (h : k2 ≠ k) : slookup (dictInsert m k v) k2 = slookup m k2 := by
  induction m with
  | nil => simp [dictInsert, slookup, Ne.symm h]
  | cons p rest ih =>
    obtain ⟨l, w⟩ := p
    by_cases hl : l = k <;> by_cases hl2 : l = k2 <;>
      simp_all [dictInsert, slookup]

/-! ## Executor (executor.py) -/

/-- The identity path segment: the injectively-modelled digest of the artifact. -/
def identityJ (a : Art) : Json := a.canonDict

theorem identityJ_spec (a : Art) : a.identity = .ok [identityJ a] :=
  Art.identity_eq a

/-- `Executor.path_for`. -/
def path_for (cacheDir : String) (a : Art) : Loc :=
  ⟨cacheDir, a.typeName, identityJ a, "payload.json"⟩

/-- `out.parent`. -/
def parent_of (l : Loc) : DirLoc := ⟨l.cacheDir, l.typeName, l.ident⟩

inductive MErr where
  | noProducer (t : String)
  | producerRaised (e : PErr)
  | producerContractViolation (t : String)
  deriving DecidableEq

/-- `Executor.materialize`, instrumented with the number of invocations of the
registered producer it performs (0 or 1).  Following executor.py: return the
location if it exists; otherwise `mkdir` the parent, look up the producer
(`KeyError` if none), invoke it, then fail with the contract-violation
`RuntimeError` if the output still does not exist. -/
def materialize (prods : List (String × ProducerFn)) (cacheDir : String)
    (st : MState) (a : Art) : MState × Nat × Except MErr Loc :=
  let out := path_for cacheDir a
  if out ∈ st.files then
    (st, 0, .ok out)
  else
    let st1 : MState := { st with dirs := parent_of out :: st.dirs }
    match get_producer prods a.typeName with
    | .error _ => (st1, 0, .error (.noProducer a.typeName))
    | .ok fn =>
      match fn st1 a out with
      | (st2, some e) => (st2, 1, .error (.producerRaised e))
      | (st2, none) =>
        if out ∈ st2.files then (st2, 1, .ok out)
        else (st2, 1, .error (.producerContractViolation a.typeName))

/-- C1: after a successful `materialize(a)` (for an artifact whose type has a
registered producer), that call invoked the producer at most once, and a second
`materialize(a)` on the resulting state returns the same location with zero
producer invocations and no state change — whatever producer registry the
second call is given, because the existence check on the computed location
short-circuits before producer lookup. -/
theorem materialize_twice_at_most_once (prods : List (String × ProducerFn))
    (cacheDir : String) (st : MState) (a : Art) (fn : ProducerFn)
    (st' : MState) (n : Nat) (loc : Loc)
    (hreg : slookup prods a.typeName = some fn)
    (h : materialize prods cacheDir st a = (st', n, .ok loc)) :
    n ≤ 1 ∧ ∀ prods2, materialize prods2 cacheDir st' a = (st', 0, .ok loc) := by
  have hloc : loc = path_for cacheDir a ∧ n ≤ 1 ∧ loc ∈ st'.files := by
    by_cases hmem : path_for cacheDir a ∈ st.files
    · simp only [materialize, if_pos hmem, Prod.mk.injEq, Except.ok.injEq] at h
      obtain ⟨rfl, rfl, rfl⟩ := h
      exact ⟨rfl, by omega, hmem⟩
    · simp only [materialize, if_neg hmem, get_producer, hreg] at h
      rcases hfn : fn { st with dirs := parent_of (path_for cacheDir a) :: st.dirs } a
          (path_for cacheDir a) with ⟨st2, oe⟩
      rw [hfn] at h
      cases oe with
      | some e => simp at h
      | none =>
        by_cases hmem2 : path_for cacheDir a ∈ st2.files
        · simp only [if_pos hmem2, Prod.mk.injEq, Except.ok.injEq] at h
          obtain ⟨rfl, rfl, rfl⟩ := h
          exact ⟨rfl, by omega, hmem2⟩
        · simp only [if_neg hmem2] at h
          simp at h
  obtain ⟨rfl, hn, hmem'⟩ := hloc
  exact ⟨hn, fun prods2 => by simp [materialize, if_pos hmem']⟩

/-- C1 witness: a concrete producer writing its output; the first call invokes
it once, the second is a pure cache hit. -/
theorem materialize_twice_at_most_once_witness :
    1 ≤ 1 ∧ ∀ prods2,
      materialize prods2 "cache" ⟨[path_for "cache" (.fs ⟨"TTbar", "2018"⟩)],
          [parent_of (path_for "cache" (.fs ⟨"TTbar", "2018"⟩))]⟩ (.fs ⟨"TTbar", "2018"⟩)
        = (⟨[path_for "cache" (.fs ⟨"TTbar", "2018"⟩)],
            [parent_of (path_for "cache" (.fs ⟨"TTbar", "2018"⟩))]⟩, 0,
           .ok (path_for "cache" (.fs ⟨"TTbar", "2018"⟩))) :=
  materialize_twice_at_most_once
    [("Fileset", fun st _ out => ({ st with files := out :: st.files }, none))]
    "cache" ⟨[], []⟩ (.fs ⟨"TTbar", "2018"⟩)
    (fun st _ out => ({ st with files := out :: st.files }, none))
    ⟨[path_for "cache" (.fs ⟨"TTbar", "2018"⟩)],
      [parent_of (path_for "cache" (.fs ⟨"TTbar", "2018"⟩))]⟩ 1
    (path_for "cache" (.fs ⟨"TTbar", "2018"⟩)) rfl rfl

/-- C2: a registered producer that returns without creating anything at the
computed output location makes `materialize` fail with the producer-contract
violation; the location remains absent from the file system afterwards (only
parent directories were created), so a subsequent `materialize` of the same
artifact misses the cache and invokes the producer again. -/
theorem materialize_contract_violation (prods : List (String × ProducerFn))
    (cacheDir : String) (st : MState) (a : Art) (fn : ProducerFn) (st2 : MState)
    (hreg : slookup prods a.typeName = some fn)
    (hmiss : path_for cacheDir a ∉ st.files)
    (hrun : fn { st with dirs := parent_of (path_for cacheDir a) :: st.dirs } a
        (path_for cacheDir a) = (st2, none))
    (habsent : path_for cacheDir a ∉ st2.files) :
    materialize prods cacheDir st a
      = (st2, 1, .error (.producerContractViolation a.typeName))
    ∧ path_for cacheDir a ∉ st2.files
    ∧ (materialize prods cacheDir st2 a).2.1 = 1 := by
  refine ⟨?_, habsent, ?_⟩
  · simp only [materialize, if_neg hmiss, get_producer, hreg]
    rw [hrun]
    simp [if_neg habsent]
  · simp only [materialize, if_neg hmiss, if_neg habsent, get_producer, hreg]
    rcases fn { st2 with dirs := parent_of (path_for cacheDir a) :: st2.dirs } a
        (path_for cacheDir a) with ⟨st3, oe⟩
    cases oe with
    | some e => rfl
    | none => by_cases h3 : path_for cacheDir a ∈ st3.files <;> simp [h3]

/-- C2 witness: a producer that does nothing triggers the contract violation and
the next call still invokes the producer. -/
theorem materialize_contract_violation_witness :
    materialize [("Fileset", fun st _ _ => (st, none))] "cache" ⟨[], []⟩
        (.fs ⟨"TTbar", "2018"⟩)
      = (⟨[], [parent_of (path_for "cache" (.fs ⟨"TTbar", "2018"⟩))]⟩, 1,
         .error (.producerContractViolation "Fileset"))
    ∧ path_for "cache" (.fs ⟨"TTbar", "2018"⟩)
        ∉ (⟨[], [parent_of (path_for "cache" (.fs ⟨"TTbar", "2018"⟩))]⟩ : MState).files
    ∧ (materialize [("Fileset", fun st _ _ => (st, none))] "cache"
        ⟨[], [parent_of (path_for "cache" (.fs ⟨"TTbar", "2018"⟩))]⟩
        (.fs ⟨"TTbar", "2018"⟩)).2.1 = 1 :=
  materialize_contract_violation [("Fileset", fun st _ _ => (st, none))] "cache"
    ⟨[], []⟩ (.fs ⟨"TTbar", "2018"⟩) (fun st _ _ => (st, none))
    ⟨[], [parent_of (path_for "cache" (.fs ⟨"TTbar", "2018"⟩))]⟩
    rfl (by simp) rfl (by simp)

/-! Two concretely distinguishable producers, used to exhibit the silent
overwrite performed by a second registration. -/

def pfnKeep : ProducerFn := fun st _ _ => (st, none)

def pfnWrite : ProducerFn := fun st _ out => ({ st with files := out :: st.files }, none)

theorem pfnWrite_ne_pfnKeep : pfnWrite ≠ pfnKeep := by
  intro h
  have h2 := congrFun (congrFun (congrFun h ⟨[], []⟩) (.fs ⟨"", ""⟩))
    ⟨"", "", .jnull, ""⟩
  simp [pfnWrite, pfnKeep] at h2

/-- C9 counterexample: registering a second producer for a type that already has
one raises nothing and silently replaces the first — afterwards lookup returns
the second function, which is provably different from the first. -/
theorem producer_second_registration_counterexample :
    get_producer (producerReg (producerReg [] "Fileset" pfnKeep) "Fileset" pfnWrite)
        "Fileset" = .ok pfnWrite
    ∧ pfnWrite ≠ pfnKeep :=
  ⟨rfl, pfnWrite_ne_pfnKeep⟩

/-- C9 amended: the `producer` decorator performs a bare dict assignment: a
second registration for the same type silently replaces the first (so the
registry does keep at most one producer per type — the most recently
registered), other types are untouched, and a missing producer is only
reported at lookup time by `get_producer`'s `KeyError`. -/
theorem producer_register_replaces (m : List (String × ProducerFn)) (t : String)
    (fn : ProducerFn) :
    get_producer (producerReg m t fn) t = .ok fn
    ∧ (∀ t2, t2 ≠ t → get_producer (producerReg m t fn) t2 = get_producer m t2)
    ∧ (∀ t3, slookup m t3 = none →
        get_producer m t3 = .error ("No producer registered for artifact type: " ++ t3)) := by
  refine ⟨?_, ?_, ?_⟩
  · simp [get_producer, producerReg, slookup_dictInsert_self]
  · intro t2 h2
    simp [get_producer, producerReg, slookup_dictInsert_ne m t t2 fn h2]
  · intro t3 h3
    simp [get_producer, h3]

/-- C9 amended witness at a concrete registry. -/
theorem producer_register_replaces_witness :
    get_producer (producerReg [] "Fileset" pfnWrite) "Fileset" = .ok pfnWrite
    ∧ ("Partition" ≠ "Fileset"
        ∧ get_producer (producerReg [] "Fileset" pfnWrite) "Partition"
            = get_producer [] "Partition")
    ∧ (slookup ([] : List (String × ProducerFn)) "Plots" = none
        ∧ get_producer [] "Plots"
            = .error ("No producer registered for artifact type: " ++ "Plots")) :=
  ⟨(producer_register_replaces [] "Fileset" pfnWrite).1,
   ⟨by decide,
    (producer_register_replaces [] "Fileset" pfnWrite).2.1 "Partition" (by decide)⟩,
   ⟨rfl, (producer_register_replaces [] "Fileset" pfnWrite).2.2 "Plots" rfl⟩⟩

/-- C8 counterexample: the canonical codec does not fail on a float NaN key
field: json.dumps is called with the default `allow_nan=True`, so NaN encodes
as the bare `NaN` token and `hash_identity` silently produces a digest. -/
theorem canonicalize_nan_counterexample :
    canonicalize (.pdict (.cons "x" .pnan .nil)) = .ok (.jobj (.cons "x" .jnan .nil))
    ∧ hash_identity [.pnan] = .ok [.jnan] :=
  ⟨rfl, rfl⟩

/-- C8 amended: the codec fails with a `TypeError` whenever a key field holds a
set — any set, comparability of its elements being irrelevant, since the
`default` hook rejects every set — but a float NaN does not fail: it is
silently encoded as the `NaN` token. -/
theorem canonicalize_set_fails (k : String) (xs : PyList) (rest : PyKVs) :
    canonicalize (.pset xs) = .error .typeError
    ∧ canonicalize (.pdict (.cons k (.pset xs) rest)) = .error .typeError
    ∧ canonicalize .pnan = .ok .jnan := by
  refine ⟨rfl, ?_, rfl⟩
  simp [canonicalize, canonKVs, bind, Except.bind]

/-! ## Artifact registry and `artifact_from_dict` (artifacts.py) -/

/-- `ARTIFACT_REGISTRY`: the type names registered by the five
`@register_artifact` decorators. -/
def ARTIFACT_REGISTRY : List String :=
  ["Fileset", "Partition", "ChunkResult", "MergedResult", "Plots"]

inductive FdErr where
  | keyError (k : String)
  | unknownType (t : String)
  | notAMapping (t : String)
  | missingField (t : String)
  | unexpectedKwarg (t : String)
  | badFieldValue (t : String)
  deriving DecidableEq

/-- All keys of a kwargs mapping lie in the allowed set (extra keyword
arguments make `cls(**kwargs)` raise `TypeError`). -/
def allKeysIn (km : PyKVs) (allowed : List String) : Bool :=
  match km with
  | .nil => true
  | .cons k _ rest => allowed.contains k && allKeysIn rest allowed

/-- `cls(**kwargs)` for the registered dataclasses.  Python dataclasses accept
arbitrary values for each field without type checks; a mapping whose values do
not fit the declared field types falls outside the typed value domain of this
embedding and is reported as `badFieldValue` (no claim exercises that path).
`Partition.strategy` defaults to `"simple"` when absent. -/
def constructArtOfKwargs (t : String) (km : PyKVs) : Except FdErr Art :=
  if t = "Fileset" then
    if allKeysIn km ["dataset", "era"] then
      match km.find? "dataset", km.find? "era" with
      | some (.pstr d), some (.pstr e) => .ok (.fs ⟨d, e⟩)
      | some _, some _ => .error (.badFieldValue t)
      | _, _ => .error (.missingField t)
    else .error (.unexpectedKwarg t)
  else if t = "Partition" then
    if allKeysIn km ["fileset", "n_parts", "strategy"] then
      match km.find? "fileset", km.find? "n_parts" with
      | some (.pobj (.fs f)), some (.pint n) =>
        match km.find? "strategy" with
        | none => .ok (.pt ⟨f, n, "simple"⟩)
        | some (.pstr s) => .ok (.pt ⟨f, n, s⟩)
        | some _ => .error (.badFieldValue t)
      | some _, some _ => .error (.badFieldValue t)
      | _, _ => .error (.missingField t)
    else .error (.unexpectedKwarg t)
  else if t = "ChunkResult" then
    if allKeysIn km ["fileset", "part", "chunk_size", "tag"] then
      match km.find? "fileset", km.find? "part", km.find? "chunk_size", km.find? "tag" with
      | some (.pobj (.fs f)), some (.pint p), some (.pint c), some (.pstr tg) =>
        .ok (.ck ⟨f, p, c, tg⟩)
      | some _, some _, some _, some _ => .error (.badFieldValue t)
      | _, _, _, _ => .error (.missingField t)
    else .error (.unexpectedKwarg t)
  else if t = "MergedResult" then
    if allKeysIn km ["fileset", "tag"] then
      match km.find? "fileset", km.find? "tag" with
      | some (.pobj (.fs f)), some (.pstr tg) => .ok (.mg ⟨f, tg⟩)
      | some _, some _ => .error (.badFieldValue t)
      | _, _ => .error (.missingField t)
    else .error (.unexpectedKwarg t)
  else
    if allKeysIn km ["fileset", "tag"] then
      match km.find? "fileset", km.find? "tag" with
      | some (.pobj (.fs f)), some (.pstr tg) => .ok (.pl ⟨f, tg⟩)
      | some _, some _ => .error (.badFieldValue t)
      | _, _ => .error (.missingField t)
    else .error (.unexpectedKwarg t)

/-- `artifact_from_dict` (artifacts.py): read `d["type"]`, look it up in
`ARTIFACT_REGISTRY` (`ValueError` for an unknown or non-string type name), then
construct `cls(**d["key"])` — note that the mapping is read from the key
`"key"`, not the `"keys"` that `to_dict` writes. -/
def artifact_from_dict (d : PyVal) : Except FdErr Art :=
  match d with
  | .pdict kvs =>
    match kvs.find? "type" with
    | none => .error (.keyError "type")
    | some (.pstr t) =>
      if t ∈ ARTIFACT_REGISTRY then
        match kvs.find? "key" with
        | none => .error (.keyError "key")
        | some (.pdict kkvs) => constructArtOfKwargs t kkvs
        | some _ => .error (.notAMapping t)
      else .error (.unknownType t)
    | some _ => .error (.unknownType "<non-string type name>")
  | _ => .error (.keyError "type")

/-- C7 counterexample: the round trip fails on a concrete artifact —
`to_dict` stores the field mapping under `"keys"` while `artifact_from_dict`
reads `d["key"]`, so decoding raises `KeyError("key")`. -/
theorem artifact_from_dict_to_dict_counterexample :
    artifact_from_dict (Art.fs ⟨"TTbar", "2018"⟩).to_dictPy = .error (.keyError "key") :=
  rfl

/-- C7 amended: `artifact_from_dict(a.to_dict())` fails with `KeyError("key")`
for every registered artifact, because `to_dict` writes the field mapping under
`"keys"` while the decoder reads `"key"`; a reference that does store the
mapping under `"key"` (the shape used at call sites such as test_run_2.py)
decodes a Fileset back to an artifact equal to the original. -/
theorem artifact_from_dict_to_dict (a : Art) (f : Fileset) :
    artifact_from_dict a.to_dictPy = .error (.keyError "key")
    ∧ artifact_from_dict
        (.pdict (.cons "type" (.pstr "Fileset") (.cons "key" f.keysPy .nil)))
      = .ok (.fs f) := by
  constructor
  · cases a <;>
      simp +decide [Art.to_dictPy, Art.typeName, artifact_from_dict, PyKVs.find?,
        ARTIFACT_REGISTRY]
  · simp +decide [artifact_from_dict, PyKVs.find?, ARTIFACT_REGISTRY,
      Fileset.keysPy, constructArtOfKwargs, allKeysIn]

/-! ## Parameter resolution (`_resolve_params`, render_local.py) -/

/-- `str.endswith(suffix)`, restated executably over the character list. -/
def strEndsWith (s t : String) : Bool :=
  Nat.ble t.toList.length s.toList.length
    && (s.toList.drop (s.toList.length - t.toList.length) == t.toList)

/-- `key[:-4] if key.endswith("_ref") else key`. -/
def stripRef (k : String) : String :=
  if strEndsWith k "_ref" then k.dropRight 4 else k

/-- A resolved parameter value: an untouched Python value, or an artifact
substituted by reference or structural resolution. -/
inductive RVal where
  | val (v : PyVal)
  | art (a : Art)
  deriving DecidableEq

/-- The structural-reference test of `_resolve_params`:
`isinstance(value, dict) and "type" in value and ("key" in value or "keys" in value)`. -/
def isStructRef (v : PyVal) : Bool :=
  match v with
  | .pdict kvs => kvs.hasKey "type" && (kvs.hasKey "key" || kvs.hasKey "keys")
  | _ => false

/-- One iteration of the `_resolve_params` loop body: which value gets assigned
for parameter `(k, v)` given the artifacts of already-executed steps. -/
def resolveOne (abn : List (String × Art)) (k : String) (v : PyVal) :
    Except FdErr RVal :=
  if isStructRef v then RVal.art <$> artifact_from_dict v
  else if strEndsWith k "_ref" then
    match v with
    | .pstr s =>
      match slookup abn s with
      | some a => .ok (.art a)
      | none => .ok (.val v)
    | _ => .ok (.val v)
  else .ok (.val v)

/-- `_resolve_params`: fold the loop body over the raw parameter list,
assigning `resolved[target_key] = ...` in Python-dict order. -/
def resolveParamsAux (abn : List (String × Art)) :
    List (String × PyVal) → List (String × RVal) → Except FdErr (List (String × RVal))
  | [], acc => .ok acc
  | (k, v) :: rest, acc => do
    let rv ← resolveOne abn k v
    resolveParamsAux abn rest (dictInsert acc (stripRef k) rv)

def resolveParams (raw : List (String × PyVal)) (abn : List (String × Art)) :
    Except FdErr (List (String × RVal)) :=
  resolveParamsAux abn raw []

/-- C6 counterexample: a `"_ref"`-suffixed parameter whose value is not the
name of an earlier step does not pass through under its original name — the
suffix is stripped anyway: the resolved mapping binds `"x"`, not `"x_ref"`. -/
theorem resolve_params_strips_unresolved_ref :
    resolveParams [("x_ref", .pstr "nobody")] [] = .ok [("x", .val (.pstr "nobody"))]
    ∧ slookup [("x", RVal.val (.pstr "nobody"))] "x_ref" = none := by
  constructor
  · simp +decide [resolveParams, resolveParamsAux, resolveOne, isStructRef,
      stripRef, strEndsWith, slookup, dictInsert, bind, Except.bind]
  · simp +decide [slookup]

/-- C6 amended: during parameter resolution of a step, (a) a parameter named
`<base>_ref` whose value is the name of an earlier, already-resolved step is
replaced by that step's constructed artifact under key `<base>`; (b) a
parameter whose value is a structural reference `{type, key}` is resolved via
the artifact registry into a fresh artifact under its target key — the
parameter name with a trailing `"_ref"` stripped when present; (c) a parameter
that is neither passes through unchanged under its original name only when that
name does not end in `"_ref"`; (d) a `"_ref"`-suffixed parameter whose value
is not an earlier step's name passes through unchanged but keyed by the
stripped name, not its original name. -/
theorem resolve_params_clauses (abn : List (String × Art)) (k : String)
    (v : PyVal) (s : String) (a : Art) :
    (strEndsWith k "_ref" = true → v = .pstr s → slookup abn s = some a →
      resolveParams [(k, v)] abn = .ok [(stripRef k, .art a)])
    ∧ (isStructRef v = true →
      resolveParams [(k, v)] abn
        = (artifact_from_dict v).map (fun a2 => [(stripRef k, .art a2)]))
    ∧ (isStructRef v = false → strEndsWith k "_ref" = false →
      resolveParams [(k, v)] abn = .ok [(k, .val v)])
    ∧ (isStructRef v = false → strEndsWith k "_ref" = true → v = .pstr s →
      slookup abn s = none →
      resolveParams [(k, v)] abn = .ok [(stripRef k, .val v)]) := by
  refine ⟨?_, ?_, ?_, ?_⟩
  · intro hk hv hl
    subst hv
    simp [resolveParams, resolveParamsAux, resolveOne, isStructRef, hk, hl,
      dictInsert, bind, Except.bind]
  · intro hv
    rcases hfd : artifact_from_dict v with e | a2 <;>
      simp [resolveParams, resolveParamsAux, resolveOne, hv, hfd, dictInsert,
        bind, Except.bind, Except.map]
  · intro hv hk
    simp [resolveParams, resolveParamsAux, resolveOne, hv, hk, stripRef,
      dictInsert, bind, Except.bind]
  · intro hv hk hvs hl
    subst hvs
    simp [resolveParams, resolveParamsAux, resolveOne, hv, hk, hl, dictInsert,
      bind, Except.bind]

/-- C6 amended witness: the four clauses at concrete parameters. -/
theorem resolve_params_clauses_witness :
    (resolveParams [("fileset_ref", .pstr "fileset")] [("fileset", .fs ⟨"TTbar", "2018"⟩)]
      = .ok [(stripRef "fileset_ref", .art (.fs ⟨"TTbar", "2018"⟩))])
    ∧ (resolveParams
        [("fileset_ref", .pdict (.cons "type" (.pstr "Fileset")
            (.cons "key" (.pdict (.cons "dataset" (.pstr "TTbar")
              (.cons "era" (.pstr "2018") .nil))) .nil)))] []
      = (artifact_from_dict (.pdict (.cons "type" (.pstr "Fileset")
            (.cons "key" (.pdict (.cons "dataset" (.pstr "TTbar")
              (.cons "era" (.pstr "2018") .nil))) .nil)))).map
          (fun a2 => [(stripRef "fileset_ref", .art a2)]))
    ∧ (resolveParams [("n_parts", .pint 3)] [] = .ok [("n_parts", .val (.pint 3))])
    ∧ (resolveParams [("x_ref", .pstr "nobody")] []
      = .ok [(stripRef "x_ref", .val (.pstr "nobody"))]) :=
  ⟨(resolve_params_clauses [("fileset", .fs ⟨"TTbar", "2018"⟩)] "fileset_ref"
      (.pstr "fileset") "fileset" (.fs ⟨"TTbar", "2018"⟩)).1 (by decide) rfl rfl,
   (resolve_params_clauses [] "fileset_ref" _ "" (.fs ⟨"", ""⟩)).2.1 (by decide),
   (resolve_params_clauses [] "n_parts" (.pint 3) "" (.fs ⟨"", ""⟩)).2.2.1
     (by decide) (by decide),
   (resolve_params_clauses [] "x_ref" (.pstr "nobody") "nobody"
     (.fs ⟨"", ""⟩)).2.2.2 (by decide) (by decide) rfl rfl⟩

/-! ## Workflow model (workflow/model.py and the missing workflow/workflow.py) -/

/-- An artifact type object: the value of a step's artifact-type field (one of
the five registered classes). -/
inductive ArtType where
  | tFileset
  | tPartition
  | tChunkResult
  | tMergedResult
  | tPlots
  deriving DecidableEq

def ArtType.className : ArtType → String
  | .tFileset => "Fileset"
  | .tPartition => "Partition"
  | .tChunkResult => "ChunkResult"
  | .tMergedResult => "MergedResult"
  | .tPlots => "Plots"

/-- A `Step` instance as the renderer sees it.  model.py's `Step` stores the
artifact type under `target_type`; the `Step` of the `workflow.workflow` module
the renderer was written against (not present in the source tree, exercised by
test_run.py) stores it under `step_type`.  An `Option` field is `none` when
the attribute is absent, which makes `AttributeError` explicit. -/
structure Step where
  name : String
  target_type : Option ArtType := none
  step_type : Option ArtType := none
  params : List (String × PyVal) := []
  deriving DecidableEq

/-- `workflow.model.Step(name=..., target_type=..., params=...)`. -/
def Step.ofModel (name : String) (t : ArtType) (params : List (String × PyVal)) : Step :=
  ⟨name, some t, none, params⟩

/-- Modelled from the spec: the `Step` constructor of the missing
`workflow/workflow.py` module (spec §3 "Step", §4.6-4.7), whose artifact-type
field is named `step_type` as exercised by test_run.py and
example/test_workflow_run.py. -/
def Step.ofWorkflowModule (name : String) (t : ArtType) (params : List (String × PyVal)) :
    Step :=
  ⟨name, none, some t, params⟩

structure Workflow where
  steps : List Step := []
  edges : List (Nat × Nat) := []
  deriving DecidableEq

/-- `Workflow.add(step, depends_on)`: append the step, then record one edge per
dependency at `self.steps.index(d)` — the first position holding a step equal
to `d`.  (Python raises `ValueError` when a dependency was never added; every
caller, and every use below, passes previously added steps only.) -/
def Workflow.add (wf : Workflow) (step : Step) (depends_on : List Step) : Workflow :=
  let steps2 := wf.steps ++ [step]
  let stepIdx := steps2.length - 1
  let depIdxs := depends_on.map (fun d => steps2.indexOf d)
  { steps := steps2, edges := wf.edges ++ depIdxs.map (fun di => (di, stepIdx)) }

/-! ## `_topo_order` (render_local.py) -/

inductive TopoErr where
  | keyError
  | cyclicOrDisconnected
  deriving DecidableEq

/-- One step of the edge-scanning loop of `_topo_order`:
`outgoing[src].append(dst); in_deg[dst] += 1`, raising `KeyError` when an
endpoint is outside `range(num_steps)` (the dicts are pre-seeded with exactly
`0..num_steps-1`). -/
def addEdge (n : Nat) (g : (Nat → List Nat) × (Nat → Int)) (e : Nat × Nat) :
    Except TopoErr ((Nat → List Nat) × (Nat → Int)) :=
  if e.1 < n ∧ e.2 < n then
    .ok (fun i => if i = e.1 then g.1 i ++ [e.2] else g.1 i,
         fun i => if i = e.2 then g.2 i + 1 else g.2 i)
  else .error .keyError

def buildGraph (n : Nat) (edges : List (Nat × Nat)) :
    Except TopoErr ((Nat → List Nat) × (Nat → Int)) :=
  edges.foldlM (addEdge n) (fun _ => [], fun _ => 0)

/-- The inner `for nxt in outgoing[idx]` loop: decrement each successor's
in-degree in sequence, collecting in order those that reach exactly 0. -/
def relax : (Nat → Int) → List Nat → (Nat → Int) × List Nat
  | indeg, [] => (indeg, [])
  | indeg, d :: ds =>
    let indeg1 : Nat → Int := fun i => if i = d then indeg i - 1 else indeg i
    let r := relax indeg1 ds
    (r.1, (if indeg1 d = 0 then [d] else []) ++ r.2)

/-- The `while queue` loop of `_topo_order`, fuel-bounded.  Every index is
enqueued at most once — initially when its in-degree is 0, or at the unique
decrement where its strictly decreasing in-degree passes through 0 — so the
loop pops at most `num_steps` times; the fuel passed below exceeds that, hence
the loop always terminates exactly as Python's does, with an empty queue. -/
def kahnLoop (og : Nat → List Nat) : Nat → (Nat → Int) → List Nat → List Nat → List Nat
  | _, _, [], order => order
  | 0, _, _, order => order
  | fuel + 1, indeg, q :: qs, order =>
    let r := relax indeg (og q)
    kahnLoop og fuel r.1 (qs ++ r.2) (order ++ [q])

/-- `_topo_order`. -/
def topo_order (n : Nat) (edges : List (Nat × Nat)) : Except TopoErr (List Nat) := do
  let g ← buildGraph n edges
  let q0 := (List.range n).filter (fun i => g.2 i = 0)
  let order := kahnLoop g.1 (n + edges.length) g.2 q0 []
  if order.length = n then pure order else .error .cyclicOrDisconnected

/-! ### Correctness of `_topo_order` -/

/-- The `outgoing` adjacency actually built by the edge scan. -/
def edgesOut (edges : List (Nat × Nat)) (i : Nat) : List Nat :=
  (edges.filter (fun e => e.1 == i)).map Prod.snd

/-- Number of edges into `i` whose source has not been popped yet. -/
def remIn (edges : List (Nat × Nat)) (order : List Nat) (i : Nat) : Nat :=
  edges.countP (fun e => e.2 == i && !(order.contains e.1))

theorem relax_fst (ds : List Nat) (indeg : Nat → Int) (i : Nat) :
    (relax indeg ds).1 i = indeg i - ds.count i := by
  induction ds generalizing indeg with
  | nil => simp [relax]
  | cons d ds ih =>
    simp only [relax]
    rw [ih]
    by_cases h : i = d <;> simp [h, List.count_cons] <;> omega

theorem relax_snd_mem (ds : List Nat) (indeg : Nat → Int) (i : Nat) :
    i ∈ (relax indeg ds).2 ↔ 1 ≤ indeg i ∧ indeg i ≤ (ds.count i : Int) := by
  induction ds generalizing indeg with
  | nil => simp [relax]; omega
  | cons d ds ih =>
    simp only [relax, List.mem_append, List.count_cons, ih]
    by_cases h : i = d <;> simp [h] <;> omega

theorem relax_snd_nodup (ds : List Nat) (indeg : Nat → Int) :
    (relax indeg ds).2.Nodup := by
  induction ds generalizing indeg with
  | nil => simp [relax]
  | cons d ds ih =>
    simp only [relax, eq_self_iff_true, if_true]
    by_cases h0 : indeg d - 1 = 0
    · rw [if_pos h0]
      simp only [List.singleton_append]
      refine List.Nodup.cons ?_ (ih _)
      rw [relax_snd_mem]
      simp only [eq_self_iff_true, if_true]
      omega
    · rw [if_neg h0]
      simp only [List.nil_append]
      exact ih _

theorem buildGraph_aux_spec (n : Nat) :
    ∀ (edges : List (Nat × Nat)) (g0 : (Nat → List Nat) × (Nat → Int))
      (og : Nat → List Nat) (indeg : Nat → Int),
    edges.foldlM (addEdge n) g0 = .ok (og, indeg) →
    (∀ e ∈ edges, e.1 < n ∧ e.2 < n)
    ∧ (∀ i, og i = g0.1 i ++ edgesOut edges i)
    ∧ (∀ i, indeg i = g0.2 i + (remIn edges [] i : Int))
  | [], g0, og, indeg => by
    intro h
    simp only [List.foldlM, pure, Except.pure, Except.ok.injEq] at h
    obtain ⟨rfl, rfl⟩ : g0.1 = og ∧ g0.2 = indeg := by
      cases g0
      simpa [Prod.mk.injEq] using h
    exact ⟨by simp, fun i => by simp [edgesOut], fun i => by simp [remIn]⟩
  | (s, d) :: rest, g0, og, indeg => by
    intro h
    simp only [List.foldlM_cons] at h
    rcases hadd : addEdge n g0 (s, d) with e | g1
    · rw [hadd] at h; simp [bind, Except.bind] at h
    · rw [hadd] at h
      simp only [bind, Except.bind] at h
      have ih := buildGraph_aux_spec n rest g1 og indeg h
      have hsd : s < n ∧ d < n := by
        by_contra hc
        simp [addEdge, hc] at hadd
      have hg1 : g1 = (fun i => if i = s then g0.1 i ++ [d] else g0.1 i,
          fun i => if i = d then g0.2 i + 1 else g0.2 i) := by
        simp [addEdge, hsd] at hadd
        exact hadd.symm
      subst hg1
      refine ⟨?_, ?_, ?_⟩
      · intro e he
        rcases List.mem_cons.mp he with rfl | he2
        · exact hsd
        · exact ih.1 e he2
      · intro i
        rw [ih.2.1 i]
        by_cases hi : i = s <;>
          simp [hi, edgesOut, List.filter_cons] <;> simp [Ne.symm hi]
      · intro i
        rw [ih.2.2 i]
        by_cases hi : i = d <;>
          simp [hi, remIn, List.countP_cons] <;> [omega; simp [Ne.symm hi]]

theorem buildGraph_total_aux (n : Nat) :
    ∀ (edges : List (Nat × Nat)) (g0 : (Nat → List Nat) × (Nat → Int)),
    (∀ e ∈ edges, e.1 < n ∧ e.2 < n) →
    ∃ og indeg, edges.foldlM (addEdge n) g0 = .ok (og, indeg)
  | [], g0, _ => ⟨g0.1, g0.2, by simp [List.foldlM, pure, Except.pure]⟩
  | (s, d) :: rest, g0, h => by
    have hsd : s < n ∧ d < n := h (s, d) (by simp)
    simp only [List.foldlM_cons, addEdge, if_pos hsd, bind, Except.bind]
    exact buildGraph_total_aux n rest _ (fun e he => h e (by simp [he]))

theorem buildGraph_total (n : Nat) (edges : List (Nat × Nat))
    (hrange : ∀ e ∈ edges, e.1 < n ∧ e.2 < n) :
    ∃ og indeg, buildGraph n edges = .ok (og, indeg) :=
  buildGraph_total_aux n edges _ hrange

theorem countP_split {α : Type} (l : List α) (p q : α → Bool) :
    l.countP p = l.countP (fun a => p a && q a) + l.countP (fun a => p a && !q a) := by
  induction l with
  | nil => simp
  | cons a l ih =>
    by_cases hp : p a <;> by_cases hq : q a <;>
      simp [List.countP_cons, hp, hq, ih] <;> omega

theorem edgesOut_count (edges : List (Nat × Nat)) (q i : Nat) :
    (edgesOut edges q).count i = edges.countP (fun e => decide (e.1 = q ∧ e.2 = i)) := by
  induction edges with
  | nil => simp [edgesOut]
  | cons e rest ih =>
    by_cases h1 : e.1 = q <;> by_cases h2 : e.2 = i <;>
      simp [edgesOut, List.filter_cons, List.countP_cons, List.count_cons, h1, h2]
        at ih ⊢ <;> omega

/-- Popping `q` removes exactly the edges out of `q` from the remaining
in-degree of every node. -/
theorem remIn_pop (edges : List (Nat × Nat)) (order : List Nat) (q i : Nat)
    (hq : q ∉ order) :
    remIn edges order i
      = remIn edges (order ++ [q]) i + (edgesOut edges q).count i := by
  rw [edgesOut_count]
  unfold remIn
  rw [countP_split edges (fun e => e.2 == i && !(order.contains e.1))
    (fun e => !(e.1 == q))]
  congr 1
  · apply List.countP_congr
    intro e _
    by_cases h1 : e.2 = i <;> by_cases h2 : e.1 ∈ order <;> by_cases h3 : e.1 = q <;>
      simp_all [List.contains, List.elem_iff]
  · apply List.countP_congr
    intro e _
    by_cases h1 : e.2 = i <;> by_cases h2 : e.1 ∈ order <;> by_cases h3 : e.1 = q <;>
      simp_all [List.contains, List.elem_iff]

theorem remIn_eq_zero (edges : List (Nat × Nat)) (order : List Nat) (i : Nat) :
    remIn edges order i = 0 ↔ ∀ e ∈ edges, e.2 = i → e.1 ∈ order := by
  unfold remIn
  rw [List.countP_eq_zero]
  constructor
  · intro h e he h2
    have := h e he
    simp [List.contains, List.elem_iff, h2] at this
    exact this
  · intro h e he
    by_cases h2 : e.2 = i <;> simp [List.contains, List.elem_iff, h2]
    exact h e he h2

theorem remIn_pos_dest (edges : List (Nat × Nat)) (order : List Nat) (i : Nat)
    (h : 0 < remIn edges order i) : ∃ e ∈ edges, e.2 = i := by
  unfold remIn at h
  rw [List.countP_pos_iff] at h
  obtain ⟨e, he, hp⟩ := h
  simp [List.contains, List.elem_iff] at hp
  exact ⟨e, he, hp.1⟩

theorem count_le_remIn (edges : List (Nat × Nat)) (order : List Nat) (q i : Nat)
    (hq : q ∉ order) :
    (edgesOut edges q).count i ≤ remIn edges order i := by
  rw [remIn_pop edges order q i hq]
  omega

/-- The loop invariant of `_topo_order`'s `while queue` loop. -/
structure KInv (n : Nat) (edges : List (Nat × Nat)) (indeg : Nat → Int)
    (queue order : List Nat) : Prop where
  nodup : (order ++ queue).Nodup
  bound : ∀ i ∈ order ++ queue, i < n
  deg : ∀ i, indeg i = (remIn edges order i : Int)
  qzero : ∀ i ∈ queue, indeg i = 0
  done : ∀ e ∈ edges, (e.2 ∈ order ∨ e.2 ∈ queue) → e.1 ∈ order
  before : ∀ e ∈ edges, e.2 ∈ order → [e.1, e.2].Sublist order

theorem kinv_order_zero {n edges indeg queue order} (h : KInv n edges indeg queue order) :
    ∀ i ∈ order, indeg i = 0 := by
  intro i hi
  rw [h.deg i]
  have : remIn edges order i = 0 := by
    rw [remIn_eq_zero]
    intro e he h2
    exact h.done e he (Or.inl (h2 ▸ hi))
  simp [this]

theorem kinv_step (n : Nat) (edges : List (Nat × Nat))
    (hrange : ∀ e ∈ edges, e.1 < n ∧ e.2 < n)
    (indeg : Nat → Int) (q : Nat) (qs order : List Nat)
    (h : KInv n edges indeg (q :: qs) order) :
    KInv n edges (relax indeg (edgesOut edges q)).1
      (qs ++ (relax indeg (edgesOut edges q)).2) (order ++ [q]) := by
  have hnd := h.nodup
  rw [List.nodup_append] at hnd
  obtain ⟨hndo, hndq, hdisj⟩ := hnd
  have hqo : q ∉ order := fun hc => hdisj hc (by simp)
  have hqqs : q ∉ qs := by
    simp only [List.nodup_cons] at hndq
    exact hndq.1
  have hq0 : indeg q = 0 := h.qzero q (by simp)
  have horder0 := kinv_order_zero h
  have hcount_le : ∀ i, ((edgesOut edges q).count i : Int) ≤ indeg i := by
    intro i
    rw [h.deg i]
    exact_mod_cast count_le_remIn edges order q i hqo
  have hdeg' : ∀ i, (relax indeg (edgesOut edges q)).1 i
      = (remIn edges (order ++ [q]) i : Int) := by
    intro i
    rw [relax_fst, h.deg i, remIn_pop edges order q i hqo]
    push_cast
    omega
  have hnew_mem : ∀ i, i ∈ (relax indeg (edgesOut edges q)).2
      ↔ 1 ≤ indeg i ∧ indeg i ≤ ((edgesOut edges q).count i : Int) :=
    relax_snd_mem (edgesOut edges q) indeg
  have hnew_fresh : ∀ i ∈ (relax indeg (edgesOut edges q)).2,
      i ∉ order ∧ i ≠ q ∧ i ∉ qs := by
    intro i hi
    have h1 := (hnew_mem i).mp hi
    refine ⟨fun hc => ?_, fun hc => ?_, fun hc => ?_⟩
    · have := horder0 i hc
      omega
    · subst hc
      omega
    · have := h.qzero i (by simp [hc])
      omega
  have hnew_zero : ∀ i ∈ (relax indeg (edgesOut edges q)).2,
      (relax indeg (edgesOut edges q)).1 i = 0 := by
    intro i hi
    have h1 := (hnew_mem i).mp hi
    have h2 := hcount_le i
    rw [relax_fst]
    omega
  refine ⟨?_, ?_, hdeg', ?_, ?_, ?_⟩
  · have heq : (order ++ [q]) ++ (qs ++ (relax indeg (edgesOut edges q)).2)
        = (order ++ q :: qs) ++ (relax indeg (edgesOut edges q)).2 := by
      simp
    rw [heq, List.nodup_append]
    refine ⟨h.nodup, relax_snd_nodup (edgesOut edges q) indeg, ?_⟩
    intro a ha hc
    have hfr := hnew_fresh a hc
    simp only [List.mem_append, List.mem_cons] at ha
    rcases ha with ha | ha | ha
    · exact hfr.1 ha
    · exact hfr.2.1 ha
    · exact hfr.2.2 ha
  · intro i hi
    have hi' : i ∈ order ∨ i = q ∨ i ∈ qs ∨ i ∈ (relax indeg (edgesOut edges q)).2 := by
      simpa [List.mem_append, List.mem_cons, or_assoc] using hi
    rcases hi' with hi2 | hi2 | hi2 | hi2
    · exact h.bound i (by simp [hi2])
    · subst hi2
      exact h.bound i (by simp)
    · exact h.bound i (by simp [hi2])
    · have h1 := (hnew_mem i).mp hi2
      have hpos : 0 < remIn edges order i := by
        have := h.deg i
        omega
      obtain ⟨e, he, he2⟩ := remIn_pos_dest edges order i hpos
      exact he2 ▸ (hrange e he).2
  · intro i hi
    rcases List.mem_append.mp hi with hi2 | hi2
    · have h0 := h.qzero i (by simp [hi2])
      have := hcount_le i
      rw [relax_fst]
      omega
    · exact hnew_zero i hi2
  · intro e he hmem
    have horq : e.2 ∈ order ∨ e.2 = q ∨ e.2 ∈ qs
        ∨ e.2 ∈ (relax indeg (edgesOut edges q)).2 := by
      rcases hmem with hm | hm
      · rcases List.mem_append.mp hm with hm2 | hm2
        · exact Or.inl hm2
        · exact Or.inr (Or.inl (by simpa using hm2))
      · rcases List.mem_append.mp hm with hm2 | hm2
        · exact Or.inr (Or.inr (Or.inl hm2))
        · exact Or.inr (Or.inr (Or.inr hm2))
    rcases horq with h2 | h2 | h2 | h2
    · exact List.mem_append.mpr (Or.inl (h.done e he (Or.inl h2)))
    · exact List.mem_append.mpr (Or.inl (h.done e he (Or.inr (by simp [h2]))))
    · exact List.mem_append.mpr (Or.inl (h.done e he (Or.inr (by simp [h2]))))
    · have hz := hnew_zero e.2 h2
      rw [hdeg' e.2] at hz
      have hz2 : remIn edges (order ++ [q]) e.2 = 0 := by exact_mod_cast hz
      rw [remIn_eq_zero] at hz2
      exact hz2 e he rfl
  · intro e he hmem
    rcases List.mem_append.mp hmem with h2 | h2
    · exact (h.before e he h2).trans (List.sublist_append_left order [q])
    · have h2' : e.2 = q := by simpa using h2
      have h1 : e.1 ∈ order := h.done e he (Or.inr (by simp [h2']))
      have hs : List.Sublist ([e.1] ++ [e.2]) (order ++ [q]) := by
        refine List.Sublist.append (List.singleton_sublist.mpr h1) ?_
        rw [h2']
      simpa using hs

theorem kahnLoop_props (n : Nat) (edges : List (Nat × Nat))
    (hrange : ∀ e ∈ edges, e.1 < n ∧ e.2 < n) :
    ∀ (fuel : Nat) (indeg : Nat → Int) (queue order : List Nat),
    KInv n edges indeg queue order →
    ∃ indeg2 queue2 order2,
      kahnLoop (edgesOut edges) fuel indeg queue order = order2
      ∧ KInv n edges indeg2 queue2 order2
      ∧ ∃ rest, order2 = order ++ rest := by
  intro fuel
  induction fuel with
  | zero =>
    intro indeg queue order h
    cases queue with
    | nil => exact ⟨indeg, [], order, rfl, h, [], by simp⟩
    | cons q qs => exact ⟨indeg, q :: qs, order, rfl, h, [], by simp⟩
  | succ fuel ih =>
    intro indeg queue order h
    cases queue with
    | nil => exact ⟨indeg, [], order, rfl, h, [], by simp⟩
    | cons q qs =>
      have hstep := kinv_step n edges hrange indeg q qs order h
      obtain ⟨i2, q2, o2, heq, hinv, rest, hrest⟩ :=
        ih (relax indeg (edgesOut edges q)).1
          (qs ++ (relax indeg (edgesOut edges q)).2) (order ++ [q]) hstep
      refine ⟨i2, q2, o2, heq, hinv, [q] ++ rest, ?_⟩
      rw [hrest]
      simp

theorem nodup_bound_cover (order : List Nat) (n : Nat) (hnd : order.Nodup)
    (hb : ∀ i ∈ order, i < n) (hlen : order.length = n) :
    ∀ i, i < n → i ∈ order := by
  intro i hi
  have hsub : order.toFinset ⊆ Finset.range n := by
    intro a ha
    simp only [List.mem_toFinset] at ha
    simpa using hb a ha
  have hcard : (Finset.range n).card ≤ order.toFinset.card := by
    rw [List.toFinset_card_of_nodup hnd, hlen, Finset.card_range]
  have heq := Finset.eq_of_subset_of_card_le hsub hcard
  have hmem : i ∈ order.toFinset := by
    rw [heq]
    simpa using hi
  simpa using hmem

theorem kinv_init (n : Nat) (edges : List (Nat × Nat)) (indeg : Nat → Int)
    (hindeg : ∀ i, indeg i = (remIn edges [] i : Int)) :
    KInv n edges indeg ((List.range n).filter (fun i => indeg i = 0)) [] := by
  refine ⟨?_, ?_, hindeg, ?_, ?_, ?_⟩
  · simpa using (List.nodup_range n).filter _
  · intro i hi
    simp only [List.nil_append, List.mem_filter, List.mem_range] at hi
    exact hi.1
  · intro i hi
    simp only [List.mem_filter] at hi
    exact of_decide_eq_true hi.2
  · intro e he hmem
    rcases hmem with hm | hm
    · simp at hm
    · simp only [List.mem_filter, List.mem_range] at hm
      have h0 : indeg e.2 = 0 := of_decide_eq_true hm.2
      rw [hindeg e.2] at h0
      have h0' : remIn edges [] e.2 = 0 := by exact_mod_cast h0
      rw [remIn_eq_zero] at h0'
      exact h0' e he rfl
  · intro e _ hm
    simp at hm

theorem topo_order_ok_props (n : Nat) (edges : List (Nat × Nat)) (order : List Nat)
    (h : topo_order n edges = .ok order) :
    order.Nodup ∧ order.length = n ∧ (∀ i, i ∈ order ↔ i < n)
    ∧ (∀ e ∈ edges, e.1 < n ∧ e.2 < n)
    ∧ (∀ e ∈ edges, List.Sublist [e.1, e.2] order) := by
  unfold topo_order at h
  rcases hbg : buildGraph n edges with e | g
  · rw [hbg] at h
    simp [bind, Except.bind] at h
  · rw [hbg] at h
    simp only [bind, Except.bind] at h
    obtain ⟨og, indeg⟩ := g
    have hspec := buildGraph_aux_spec n edges (fun _ => [], fun _ => 0) og indeg hbg
    have hrange := hspec.1
    have hog : og = edgesOut edges := funext fun i => by
      rw [hspec.2.1 i]
      simp
    have hindeg : ∀ i, indeg i = (remIn edges [] i : Int) := fun i => by
      rw [hspec.2.2 i]
      simp
    rw [hog] at h
    obtain ⟨i2, q2, o2, heq, hinv, rest, hrest⟩ :=
      kahnLoop_props n edges hrange (n + edges.length) indeg
        ((List.range n).filter (fun i => indeg i = 0)) []
        (kinv_init n edges indeg hindeg)
    rw [heq] at h
    by_cases hlen : o2.length = n
    · rw [if_pos hlen] at h
      have ho : o2 = order := by
        simpa [pure, Except.pure] using h
      subst ho
      have hnd : o2.Nodup := (List.nodup_append.mp hinv.nodup).1
      have hb : ∀ i ∈ o2, i < n := fun i hi => hinv.bound i (by simp [hi])
      have hcover := nodup_bound_cover o2 n hnd hb hlen
      refine ⟨hnd, hlen, fun i => ⟨hb i, hcover i⟩, hrange, ?_⟩
      intro e he
      exact hinv.before e he (hcover e.2 (hrange e he).2)
    · rw [if_neg hlen] at h
      simp at h

theorem sublist_pair_indexOf_lt : ∀ (l : List Nat), l.Nodup → ∀ a b : Nat,
    List.Sublist [a, b] l → l.indexOf a < l.indexOf b
  | [], _, a, b, h => by simp at h
  | x :: l, hnd, a, b, h => by
    rw [List.nodup_cons] at hnd
    cases h with
    | cons y h2 =>
      have ha : a ∈ l := h2.subset (by simp)
      have hb : b ∈ l := h2.subset (by simp)
      have hax : x ≠ a := fun hc => hnd.1 (hc ▸ ha)
      have hbx : x ≠ b := fun hc => hnd.1 (hc ▸ hb)
      rw [List.indexOf_cons_ne l hax, List.indexOf_cons_ne l hbx]
      exact Nat.succ_lt_succ (sublist_pair_indexOf_lt l hnd.2 a b h2)
    | cons₂ y h2 =>
      have hb : b ∈ l := h2.subset (by simp)
      have hbx : x ≠ b := fun hc => hnd.1 (hc ▸ hb)
      rw [List.indexOf_cons_self, List.indexOf_cons_ne l hbx]
      omega

/-- A cycle in the declared edge relation. -/
def hasCycle (edges : List (Nat × Nat)) : Prop :=
  ∃ i, Relation.TransGen (fun a b => (a, b) ∈ edges) i i

theorem topo_order_not_ok_of_cycle (n : Nat) (edges : List (Nat × Nat))
    (hcyc : hasCycle edges) (order : List Nat) :
    topo_order n edges ≠ .ok order := by
  intro hok
  obtain ⟨hnd, hlen, hcov, hrange, hsub⟩ := topo_order_ok_props n edges order hok
  obtain ⟨i, hT⟩ := hcyc
  have hmono : ∀ a b, Relation.TransGen (fun a b => (a, b) ∈ edges) a b →
      order.indexOf a < order.indexOf b := by
    intro a b hT2
    induction hT2 with
    | single hab => exact sublist_pair_indexOf_lt order hnd _ _ (hsub (_, _) hab)
    | tail hT2 hab ih =>
      exact lt_trans ih (sublist_pair_indexOf_lt order hnd _ _ (hsub (_, _) hab))
  exact lt_irrefl _ (hmono i i hT)

theorem topo_order_cyclic (n : Nat) (edges : List (Nat × Nat))
    (hrange : ∀ e ∈ edges, e.1 < n ∧ e.2 < n)
    (hcyc : hasCycle edges) :
    topo_order n edges = .error .cyclicOrDisconnected := by
  obtain ⟨og, indeg, hbg⟩ := buildGraph_total n edges hrange
  rcases hres : topo_order n edges with te | order
  · cases te with
    | keyError =>
      exfalso
      unfold topo_order at hres
      rw [hbg] at hres
      simp only [bind, Except.bind] at hres
      by_cases hlen : (kahnLoop og (n + edges.length) indeg
          ((List.range n).filter (fun i => indeg i = 0)) []).length = n
      · rw [if_pos hlen] at hres
        simp [pure, Except.pure] at hres
      · rw [if_neg hlen] at hres
        simp at hres
    | cyclicOrDisconnected => rfl
  · exact absurd hres (topo_order_not_ok_of_cycle n edges hcyc order)

/-- The tie-break rule claimed in C4: whenever, after the first `k` computed
steps, two unplaced steps both have every declared dependency already placed,
the one with the lower insertion index comes first in the computed order. -/
def insertionTieBreak (n : Nat) (edges : List (Nat × Nat)) : Prop :=
  ∀ order, topo_order n edges = .ok order →
    ∀ k i j, i < j → i < n → j < n →
      i ∉ order.take k → j ∉ order.take k →
      (∀ e ∈ edges, e.2 = i → e.1 ∈ order.take k) →
      (∀ e ∈ edges, e.2 = j → e.1 ∈ order.take k) →
      order.indexOf i < order.indexOf j

/-- C4 counterexample: a four-step workflow built through `Workflow.add` with
declared edges `[(1,2),(0,3)]`.  After the first two computed steps, steps 2
and 3 simultaneously have no remaining unresolved dependency, yet the computed
order `[0, 1, 3, 2]` places step 3 (inserted later) before step 2. -/
theorem topo_tie_break_counterexample :
    (((((Workflow.mk [] []).add (Step.ofWorkflowModule "s0" .tFileset []) []).add
        (Step.ofWorkflowModule "s1" .tFileset []) []).add
        (Step.ofWorkflowModule "s2" .tPartition [])
          [Step.ofWorkflowModule "s1" .tFileset []]).add
        (Step.ofWorkflowModule "s3" .tPartition [])
          [Step.ofWorkflowModule "s0" .tFileset []]).edges = [(1, 2), (0, 3)]
    ∧ topo_order 4 [(1, 2), (0, 3)] = .ok [0, 1, 3, 2]
    ∧ ¬ insertionTieBreak 4 [(1, 2), (0, 3)] := by
  refine ⟨rfl, rfl, ?_⟩
  intro h
  have h2 := h [0, 1, 3, 2] rfl 2 2 3 (by omega) (by omega) (by omega)
    (by decide) (by decide) (by decide) (by decide)
  exact absurd h2 (by decide)

/-- C4 amended: for every workflow whose declared edges are in range, a
successful `_topo_order` run computes a deterministic Kahn topological order:
a permutation of all step indices in which the source of every declared edge
appears strictly before its destination.  Ties are broken by FIFO readiness
order — the tie between steps that become ready at the same moment is resolved
by their insertion order, but steps readied at different moments follow
readiness order, not global insertion order. -/
theorem topo_order_is_topological (n : Nat) (edges : List (Nat × Nat))
    (order : List Nat) (h : topo_order n edges = .ok order) :
    order.Nodup ∧ order.length = n ∧ (∀ i, i ∈ order ↔ i < n)
    ∧ ∀ e ∈ edges, order.indexOf e.1 < order.indexOf e.2 := by
  obtain ⟨hnd, hlen, hcov, hrange, hsub⟩ := topo_order_ok_props n edges order h
  exact ⟨hnd, hlen, hcov,
    fun e he => sublist_pair_indexOf_lt order hnd _ _ (hsub e he)⟩

/-- C4 amended witness: the spec's diamond `{0→1, 0→2, 1→3, 2→3}`. -/
theorem topo_order_is_topological_witness :
    ([0, 1, 2, 3] : List Nat).Nodup ∧ ([0, 1, 2, 3] : List Nat).length = 4
    ∧ (∀ i, i ∈ ([0, 1, 2, 3] : List Nat) ↔ i < 4)
    ∧ ∀ e ∈ [((0 : Nat), (1 : Nat)), (0, 2), (1, 3), (2, 3)],
        ([0, 1, 2, 3] : List Nat).indexOf e.1 < ([0, 1, 2, 3] : List Nat).indexOf e.2 :=
  topo_order_is_topological 4 [(0, 1), (0, 2), (1, 3), (2, 3)] [0, 1, 2, 3] rfl

/-! ## `render_local` (workflow/renderers/render_local.py) -/

structure Config where
  renderer : String := "local"
  cache_dir : String := ".cache"

inductive RErr where
  | attributeError (missing : String)
  | indexError
  | resolveError (e : FdErr)
  | constructError (t : ArtType)
  | topoError (e : TopoErr)
  | matError (e : MErr)
  deriving DecidableEq

/-- The step-printing loop of `_print_dag`: reads `step.step_type.__name__` for
every step in order, raising `AttributeError` at the first step without a
`step_type` attribute — in particular every `workflow.model.Step`.  The printed
text itself is irrelevant to the model; only the raised error matters. -/
def printDagSteps : List Step → Except RErr Unit
  | [] => .ok ()
  | s :: rest =>
    match s.step_type with
    | none => .error (.attributeError "step_type")
    | some _ => printDagSteps rest

/-- The edge-printing loop of `_print_dag`: reads `workflow.steps[src].name`
and `workflow.steps[dst].name`, raising `IndexError` for an index outside the
step list. -/
def printDagEdges (n : Nat) : List (Nat × Nat) → Except RErr Unit
  | [] => .ok ()
  | (s, d) :: rest =>
    if s < n ∧ d < n then printDagEdges n rest else .error .indexError

def printDag (wf : Workflow) : Except RErr Unit := do
  printDagSteps wf.steps
  printDagEdges wf.steps.length wf.edges

/-- `step.step_type(**resolved_params)`: keyword construction of the target
dataclass from resolved parameter values.  Well-typed combinations construct
the artifact; Python would also accept ill-typed field values, constructing an
instance outside this embedding's typed value domain (no claim exercises that
path), reported as `constructError`. -/
def constructArt (t : ArtType) (params : List (String × RVal)) : Except RErr Art :=
  match t with
  | .tFileset =>
    match slookup params "dataset", slookup params "era" with
    | some (.val (.pstr d)), some (.val (.pstr e)) =>
      if params.length = 2 then .ok (.fs ⟨d, e⟩) else .error (.constructError t)
    | _, _ => .error (.constructError t)
  | .tPartition =>
    match slookup params "fileset", slookup params "n_parts" with
    | some (.art (.fs f)), some (.val (.pint np)) =>
      match slookup params "strategy" with
      | none =>
        if params.length = 2 then .ok (.pt ⟨f, np, "simple"⟩)
        else .error (.constructError t)
      | some (.val (.pstr sg)) =>
        if params.length = 3 then .ok (.pt ⟨f, np, sg⟩) else .error (.constructError t)
      | some _ => .error (.constructError t)
    | _, _ => .error (.constructError t)
  | .tChunkResult =>
    match slookup params "fileset", slookup params "part",
        slookup params "chunk_size", slookup params "tag" with
    | some (.art (.fs f)), some (.val (.pint p)), some (.val (.pint c)),
        some (.val (.pstr tg)) =>
      if params.length = 4 then .ok (.ck ⟨f, p, c, tg⟩) else .error (.constructError t)
    | _, _, _, _ => .error (.constructError t)
  | .tMergedResult =>
    match slookup params "fileset", slookup params "tag" with
    | some (.art (.fs f)), some (.val (.pstr tg)) =>
      if params.length = 2 then .ok (.mg ⟨f, tg⟩) else .error (.constructError t)
    | _, _ => .error (.constructError t)
  | .tPlots =>
    match slookup params "fileset", slookup params "tag" with
    | some (.art (.fs f)), some (.val (.pstr tg)) =>
      if params.length = 2 then .ok (.pl ⟨f, tg⟩) else .error (.constructError t)
    | _, _ => .error (.constructError t)

structure RenderOut where
  paths : List (String × Loc)
  artifacts : List (String × Art)
  order : List String

/-- The per-step execution loop of `render_local`, threading the executor
state, the total number of producer invocations, and the by-name result maps. -/
def renderLoop (prods : List (String × ProducerFn)) (cacheDir : String)
    (steps : List Step) :
    List Nat → MState → Nat → List (String × Art) → List (String × Loc) →
    MState × Nat × Except RErr (List (String × Loc) × List (String × Art))
  | [], st, cnt, abn, pbn => (st, cnt, .ok (pbn, abn))
  | idx :: rest, st, cnt, abn, pbn =>
    match steps[idx]? with
    | none => (st, cnt, .error .indexError)
    | some step =>
      match resolveParams step.params abn with
      | .error e => (st, cnt, .error (.resolveError e))
      | .ok params =>
        match step.step_type with
        | none => (st, cnt, .error (.attributeError "step_type"))
        | some t =>
          match constructArt t params with
          | .error e => (st, cnt, .error e)
          | .ok artv =>
            match materialize prods cacheDir st artv with
            | (st2, c2, .error me) => (st2, cnt + c2, .error (.matError me))
            | (st2, c2, .ok loc) =>
              renderLoop prods cacheDir steps rest st2 (cnt + c2)
                (dictInsert abn step.name artv) (dictInsert pbn step.name loc)

/-- `render_local`, instrumented like `materialize` with the number of producer
invocations performed.  (The indices of a successful `_topo_order` run are
always in range, so the name lookup for the returned order list never falls
back to its `""` default.) -/
def render_local (prods : List (String × ProducerFn)) (wf : Workflow)
    (config : Config) (st : MState) : MState × Nat × Except RErr RenderOut :=
  let n := wf.steps.length
  if n = 0 then (st, 0, .ok ⟨[], [], []⟩)
  else
    match printDag wf with
    | .error e => (st, 0, .error e)
    | .ok _ =>
      match topo_order n wf.edges with
      | .error e => (st, 0, .error (.topoError e))
      | .ok order =>
        match renderLoop prods config.cache_dir wf.steps order st 0 [] [] with
        | (st2, cnt, .error e) => (st2, cnt, .error e)
        | (st2, cnt, .ok (pbn, abn)) =>
          (st2, cnt, .ok ⟨pbn, abn,
            order.map (fun i => ((wf.steps[i]?).map Step.name).getD "")⟩)

theorem printDagSteps_ok (l : List Step) (h : ∀ s ∈ l, s.step_type ≠ none) :
    printDagSteps l = .ok () := by
  induction l with
  | nil => rfl
  | cons s rest ih =>
    have hs := h s (by simp)
    rcases ht : s.step_type with _ | t
    · exact absurd ht hs
    · simp only [printDagSteps, ht]
      exact ih (fun s2 h2 => h s2 (by simp [h2]))

theorem printDagSteps_error (l : List Step) (h : ∃ s ∈ l, s.step_type = none) :
    printDagSteps l = .error (.attributeError "step_type") := by
  induction l with
  | nil => simp at h
  | cons s rest ih =>
    rcases ht : s.step_type with _ | t
    · simp [printDagSteps, ht]
    · simp only [printDagSteps, ht]
      obtain ⟨s2, hs2, hn⟩ := h
      rcases List.mem_cons.mp hs2 with rfl | hmem
      · exact absurd ht (by simp [hn])
      · exact ih ⟨s2, hmem, hn⟩

theorem printDagEdges_ok (n : Nat) (l : List (Nat × Nat))
    (h : ∀ e ∈ l, e.1 < n ∧ e.2 < n) : printDagEdges n l = .ok () := by
  induction l with
  | nil => rfl
  | cons e rest ih =>
    obtain ⟨s, d⟩ := e
    have hs := h (s, d) (by simp)
    simp only [printDagEdges, if_pos hs]
    exact ih (fun e2 h2 => h e2 (by simp [h2]))

/-- C5: rendering a workflow (of steps carrying the `step_type` attribute the
renderer reads) whose edge relation contains a cycle fails with the
`CyclicOrDisconnectedGraph` error, with zero producer invocations and the
file-system state untouched — before any step's artifact is materialized. -/
theorem render_cyclic_fails (prods : List (String × ProducerFn)) (wf : Workflow)
    (config : Config) (st : MState)
    (hst : ∀ s ∈ wf.steps, s.step_type ≠ none)
    (hrange : ∀ e ∈ wf.edges, e.1 < wf.steps.length ∧ e.2 < wf.steps.length)
    (hcyc : hasCycle wf.edges) :
    render_local prods wf config st
      = (st, 0, .error (.topoError .cyclicOrDisconnected)) := by
  have hedge : ∃ e, e ∈ wf.edges := by
    obtain ⟨i, hT⟩ := hcyc
    cases hT with
    | single h => exact ⟨(i, i), h⟩
    | tail _ h => rename_i b _; exact ⟨(b, i), h⟩
  have hn : wf.steps.length ≠ 0 := by
    obtain ⟨e, he⟩ := hedge
    have := (hrange e he).1
    omega
  have hpd : printDag wf = .ok () := by
    unfold printDag
    rw [printDagSteps_ok wf.steps hst]
    simpa [bind, Except.bind] using printDagEdges_ok wf.steps.length wf.edges hrange
  have htopo := topo_order_cyclic wf.steps.length wf.edges hrange hcyc
  unfold render_local
  rw [if_neg hn, hpd, htopo]

/-- C5 witness: the two-step graph with edges `{0→1, 1→0}`. -/
theorem render_cyclic_fails_witness :
    render_local []
      ⟨[Step.ofWorkflowModule "a" .tFileset [], Step.ofWorkflowModule "b" .tFileset []],
       [(0, 1), (1, 0)]⟩ ⟨"local", "cache"⟩ ⟨[], []⟩
      = (⟨[], []⟩, 0, .error (.topoError .cyclicOrDisconnected)) :=
  render_cyclic_fails [] _ _ _ (by decide) (by decide)
    ⟨0, Relation.TransGen.head
      (show ((0 : Nat), (1 : Nat)) ∈ ([(0, 1), (1, 0)] : List (Nat × Nat)) by simp)
      (Relation.TransGen.single
        (show ((1 : Nat), (0 : Nat)) ∈ ([(0, 1), (1, 0)] : List (Nat × Nat)) by simp))⟩

/-- C10: `render_local` reads `step.step_type`, but every step constructed from
`workflow.model.Step` carries its artifact type under `target_type` and has no
`step_type` attribute, so rendering any workflow containing such a step fails
with `AttributeError` (raised while `_print_dag` formats the DAG, before
`Executor.materialize` runs for any step: zero producer invocations, state
untouched); only the zero-step workflow renders successfully through this pair
of modules, returning empty results. -/
theorem render_model_step_attribute_error (prods : List (String × ProducerFn))
    (wf : Workflow) (config : Config) (st : MState)
    (h : ∃ s ∈ wf.steps, s.step_type = none) :
    render_local prods wf config st = (st, 0, .error (.attributeError "step_type"))
    ∧ ∀ edges2, render_local prods ⟨[], edges2⟩ config st = (st, 0, .ok ⟨[], [], []⟩) := by
  constructor
  · have hn : wf.steps.length ≠ 0 := by
      obtain ⟨s, hs, _⟩ := h
      have := List.length_pos_of_mem hs
      omega
    have hpd : printDag wf = .error (.attributeError "step_type") := by
      unfold printDag
      rw [printDagSteps_error wf.steps h]
      rfl
    unfold render_local
    rw [if_neg hn, hpd]
  · intro edges2
    rfl

/-- C10 witness: a one-step workflow built from `workflow.model.Step`
(`target_type` set, no `step_type`), as in test_run_2.py. -/
theorem render_model_step_attribute_error_witness :
    render_local [] ⟨[Step.ofModel "fileset" .tFileset
        [("dataset", .pstr "TTbar"), ("era", .pstr "2018")]], []⟩
      ⟨"local", "cache"⟩ ⟨[], []⟩
      = (⟨[], []⟩, 0, .error (.attributeError "step_type"))
    ∧ ∀ edges2, render_local [] ⟨[], edges2⟩ ⟨"local", "cache"⟩ ⟨[], []⟩
      = (⟨[], []⟩, 0, .ok ⟨[], [], []⟩) :=
  render_model_step_attribute_error [] _ _ _
    ⟨Step.ofModel "fileset" .tFileset
        [("dataset", .pstr "TTbar"), ("era", .pstr "2018")], by simp,
      by simp [Step.ofModel]⟩

end CoffeaWE
